import Mathlib

/-!
Verification of the RecuRun recursion-runner engine.

The engine (README listing / src/index.ts) drives "resumable computations"
(JavaScript generators) to completion iteratively.  We embed:

* the capability predicates `isGenerator` / `isAsyncGenerator` over a model
  of JavaScript values (`JSVal`);
* generators as strategy trees (`Gen`): a generator in a given internal state
  is a function from the resumption input to the next step outcome
  (`Step.done` = `{done: true, value}`, `Step.yld y k` = `{done: false,
  value: y}` with post-yield state `k`).  Mutation of the JS generator object
  is modelled by passing the successor state explicitly;
* the general driver `runSyncImpl` with its explicit stack (a JS array with
  possibly-undefined slots, modelled as `Nat → Option Frame`), the async
  general driver `runAsyncImpl` (awaits are transparent in the model: we model
  the post-await step outcome), and the tail driver `runTailSyncImpl`;
* a fuel-indexed reference evaluator `evalU` that evaluates a generator tree
  by ordinary (host-stack) recursion, used as the "naive recursion" yardstick.

All loops are fuel-indexed since a driven computation need not terminate.
-/

namespace RecuRun

/-- Runtime tags a JS value may carry as `Symbol.toStringTag`; every string
other than the two the predicates test for behaves identically, so tags are
modelled as an enumeration (absence is `Option.none` at the use site). -/
inductive JSTag where
  | tagGenerator
  | tagAsyncGenerator
deriving DecidableEq, Repr

/-- The structure of a JS value of `typeof v === 'object'` as far as the
capability predicates inspect it: whether `v[Symbol.iterator]` is a function,
whether `v[Symbol.asyncIterator]` is a function, and its `Symbol.toStringTag`. -/
structure JSObj where
  hasIter : Bool
  hasAsyncIter : Bool
  tag : Option JSTag
deriving DecidableEq, Repr

/-- JS values as classified by `typeof` plus the null special case.
`fnVal` stands for any callable (`typeof v === 'function'`). -/
inductive JSVal where
  | vNull
  | vUndef
  | number (n : Int)
  | boolean (b : Bool)
  | fnVal
  | obj (o : JSObj)
deriving DecidableEq, Repr

/-- `isGenerator` (README listing lines 626-634, src/index.ts lines 44-50):
`typeof v === 'object' && v !== null && typeof v[Symbol.iterator] ===
'function' && v[Symbol.toStringTag] === 'Generator'`.  Note `typeof null`
is `'object'` in JS, hence the separate null rejection, modelled here by
`vNull` being its own constructor. -/
def isGenerator : JSVal → Bool
  | .obj o => o.hasIter && o.tag == some .tagGenerator
  | _ => false

/-- `isAsyncGenerator` (README listing lines 653-660): like `isGenerator`
but testing `Symbol.asyncIterator` and the tag `'AsyncGenerator'`. -/
def isAsyncGenerator : JSVal → Bool
  | .obj o => o.hasAsyncIter && o.tag == some .tagAsyncGenerator
  | _ => false

/-- The shape of a freshly created synchronous generator object:
`Symbol.iterator` present, no `Symbol.asyncIterator`, tag `'Generator'`. -/
def genObjShape : JSVal := .obj ⟨true, false, some .tagGenerator⟩

/-- The shape of an async generator object: `Symbol.asyncIterator` present,
no `Symbol.iterator`, tag `'AsyncGenerator'`. -/
def asyncGenObjShape : JSVal := .obj ⟨false, true, some .tagAsyncGenerator⟩

/-- Result values: what a driven computation returns, what a plain yield
carries, and what the drivers feed back on resumption (`null` included,
since both drivers initialise `ret = null`). -/
inductive RVal where
  | null
  | int (n : Int)
  | bool (b : Bool)
deriving DecidableEq, Repr

/-- A resumption input as fed by a driver to `current.next(ret)`: either a
model value, or `fnBack`, standing for the case where the driver handed the
very function object the generator just yielded straight back to it (the
general driver's else-branch when the yielded value is callable). -/
inductive Ret where
  | val (v : RVal)
  | fnBack
deriving DecidableEq, Repr

mutual
/-- A synchronous generator in some internal state: `next` applied to the
resumption input yields the step outcome. -/
inductive Gen : Type where
  | mk : (Ret → Step) → Gen

/-- Outcome of one `current.next(ret)` call: `{done: true, value: v}` or
`{done: false, value: y}` together with the generator's post-yield state. -/
inductive Step : Type where
  | done : RVal → Step
  | yld : YVal → Gen → Step

/-- A yielded value, pre-split by the classification the drivers perform:
`child g` is a value for which `isGenerator` is true (a nested generator
object), `thunk f` is a callable (`typeof value === 'function'`) which when
invoked returns `f`, and `plain v` is any other value. -/
inductive YVal : Type where
  | child : Gen → YVal
  | thunk : FRes → YVal
  | plain : RVal → YVal

/-- What a yielded zero-argument factory returns when invoked: either a real
generator (truthy, with a callable `next`, so it passes the tail driver's
`gen && typeof gen.next === 'function'` check) or a plain value without a
usable `next` (the check fails: falsy, or no `next` method). -/
inductive FRes : Type where
  | gen : Gen → FRes
  | notGen : RVal → FRes
end

/-- One resumption step: `current.next(ret)`. -/
def nextG : Gen → Ret → Step
  | .mk k, r => k r

mutual
/-- An asynchronous generator in some internal state; `await current.next(ret)`
resolves to the step outcome, so the model records the post-await outcome
directly. -/
inductive AGen : Type where
  | mk : (Ret → AStep) → AGen

/-- Outcome one awaited `next` call resolves to. -/
inductive AStep : Type where
  | done : RVal → AStep
  | yld : AYVal → AGen → AStep

/-- A value yielded inside the async world, pre-split by classification:
`achild` is a value accepted by `isAsyncGenerator`, `thunkA` a callable,
`plain` anything else. -/
inductive AYVal : Type where
  | achild : AGen → AYVal
  | thunkA : AFRes → AYVal
  | plain : RVal → AYVal

/-- What an async factory resolves to when invoked and awaited. -/
inductive AFRes : Type where
  | agen : AGen → AFRes
  | notGen : RVal → AFRes
end

/-- One awaited resumption step of an async generator. -/
def nextA : AGen → Ret → AStep
  | .mk k, r => k r

/-- A saved stack frame of the general driver: `{generator: current,
isTailCall: false}`.  The `isTailCall` field is stored but never read. -/
structure Frame where
  generator : Gen
  isTailCall : Bool

/-- A saved frame of the async general driver. -/
structure AFrame where
  generator : AGen
  isTailCall : Bool

/-- Writing one slot of the driver's stack array (`stack[stackSize] = f`).
The array is modelled as a total map from indices to possibly-undefined
slots, matching `new Array(1024)` whose unwritten slots read as undefined. -/
def setSlot {α : Type} (st : Nat → Option α) (i : Nat) (f : α) : Nat → Option α :=
  fun j => if j = i then some f else st j

/-- The all-undefined freshly allocated stack. -/
def emptyStack {α : Type} : Nat → Option α := fun _ => none

/-- Outcome of a general-driver invocation: the returned value, the internal
`throw new Error('Stack frame is undefined')`, or fuel exhaustion (the model's
stand-in for an execution longer than the given fuel). -/
inductive RunOut where
  | ok : RVal → RunOut
  | frameUndefined : RunOut
  | fuelOut : RunOut
deriving DecidableEq, Repr

/-- The loop of `runSyncImpl` (README listing lines 722-769), one fuel unit
per `current.next(ret)` call.  On `done`: return if the stack is empty, else
decrement `stackSize`, read `stack[stackSize]` (the guarded read that throws
if the slot is undefined), and resume the popped parent with the result.  On a
yield: if `isGenerator(r.value)` push `{generator: current, isTailCall:
false}` and descend with `ret = null`; a callable or any other value is fed
back unchanged as the next resumption input (`ret = r.value`). -/
def runSyncLoop : Nat → (Nat → Option Frame) → Nat → Gen → Ret → RunOut
  | 0, _, _, _, _ => .fuelOut
  | fuel + 1, st, size, current, ret =>
    match nextG current ret with
    | .done v =>
        if size = 0 then .ok v
        else
          match st (size - 1) with
          | none => .frameUndefined
          | some fr => runSyncLoop fuel st (size - 1) fr.generator (.val v)
    | .yld y k =>
        match y with
        | .child c => runSyncLoop fuel (setSlot st size ⟨k, false⟩) (size + 1) c (.val .null)
        | .thunk _ => runSyncLoop fuel st size k .fnBack
        | .plain v => runSyncLoop fuel st size k (.val v)

/-- `runSyncImpl`: stack freshly allocated (all slots undefined), `stackSize
= 0`, `ret = null`. -/
def runSyncImpl (fuel : Nat) (g : Gen) : RunOut :=
  runSyncLoop fuel emptyStack 0 g (.val .null)

/-- The loop of `runAsyncImpl` (README listing lines 774-821): identical
control flow, with each `next` awaited and classification by
`isAsyncGenerator`. -/
def runAsyncLoop : Nat → (Nat → Option AFrame) → Nat → AGen → Ret → RunOut
  | 0, _, _, _, _ => .fuelOut
  | fuel + 1, st, size, current, ret =>
    match nextA current ret with
    | .done v =>
        if size = 0 then .ok v
        else
          match st (size - 1) with
          | none => .frameUndefined
          | some fr => runAsyncLoop fuel st (size - 1) fr.generator (.val v)
    | .yld y k =>
        match y with
        | .achild c => runAsyncLoop fuel (setSlot st size ⟨k, false⟩) (size + 1) c (.val .null)
        | .thunkA _ => runAsyncLoop fuel st size k .fnBack
        | .plain v => runAsyncLoop fuel st size k (.val v)

/-- `runAsyncImpl` entry state. -/
def runAsyncImpl (fuel : Nat) (g : AGen) : RunOut :=
  runAsyncLoop fuel emptyStack 0 g (.val .null)

/-- The argument of the public `run` entry point, pre-split by the
`isAsyncGenerator(generator)` test `run` performs. -/
inductive RunInput where
  | sync : Gen → RunInput
  | async : AGen → RunInput

/-- The public `run` (README listing lines 703-717): dispatches on
`isAsyncGenerator(generator)` — an async generator goes to `runAsyncImpl`,
anything else to `runSyncImpl`. -/
def run (fuel : Nat) : RunInput → RunOut
  | .async a => runAsyncImpl fuel a
  | .sync g => runSyncImpl fuel g

/-- Outcome of a tail-driver invocation: the returned value, the
`TypeError('runTail: Expected a Generator function, but got an invalid
generator')`, or fuel exhaustion. -/
inductive TailOut where
  | ok : RVal → TailOut
  | typeErrorInvalidFactory : TailOut
  | fuelOut : TailOut
deriving DecidableEq, Repr

/-- The loop of `runTailSyncImpl` (README listing lines 879-916).  On a yield
it first tests `typeof value === 'function'`: if so it invokes the factory
and checks `gen && typeof gen.next === 'function'` — a real generator
(`FRes.gen`) passes and the driver switches to it without stacking, anything
else (`FRes.notGen`: falsy or lacking a callable `next`) raises the
TypeError.  A yielded generator object is switched to directly; any other
value is fed back as the next resumption input. -/
def runTailSyncLoop : Nat → Gen → Ret → TailOut
  | 0, _, _ => .fuelOut
  | fuel + 1, current, ret =>
    match nextG current ret with
    | .done v => .ok v
    | .yld y k =>
        match y with
        | .thunk f =>
            match f with
            | .gen g => runTailSyncLoop fuel g (.val .null)
            | .notGen _ => .typeErrorInvalidFactory
        | .child c => runTailSyncLoop fuel c (.val .null)
        | .plain v => runTailSyncLoop fuel k (.val v)

/-- `runTailSyncImpl` entry state: `ret = null`. -/
def runTailSyncImpl (fuel : Nat) (g : Gen) : TailOut :=
  runTailSyncLoop fuel g (.val .null)

/-- Reference evaluator: the meaning of a generator tree under ordinary
(host-stack) recursion, i.e. the naive recursive semantics the drivers are
meant to implement.  One fuel unit per resumption step; a nested child is
evaluated by a direct recursive call and its value handed to the parent's
continuation, exactly as a recursive function call would.  Returns the result
together with the number of fuel units consumed. -/
def evalU : Nat → Gen → Ret → Option (RVal × Nat)
  | 0, _, _ => none
  | fuel + 1, g, r =>
    match nextG g r with
    | .done v => some (v, 1)
    | .yld (.plain u) k =>
        (evalU fuel k (.val u)).map (fun p => (p.1, p.2 + 1))
    | .yld (.thunk _) k =>
        (evalU fuel k .fnBack).map (fun p => (p.1, p.2 + 1))
    | .yld (.child c) k =>
        match evalU fuel c (.val .null) with
        | none => none
        | some (u, m) =>
            match evalU (fuel - m) k (.val u) with
            | none => none
            | some (v, m') => some (v, m + m' + 1)
termination_by fuel _ _ => fuel
decreasing_by
  all_goals omega

mutual
/-- Strip the (model-transparent) awaits from an async generator: the sync
generator that performs the same suspensions with the same values, step for
step.  An async computation `a` is the step-for-step asynchronous mirror of a
sync computation `g` exactly when `toSync a = g`. -/
def toSync : AGen → Gen
  | .mk k => .mk (fun r => toSyncStep (k r))

/-- Step-for-step image of one async step outcome. -/
def toSyncStep : AStep → Step
  | .done v => .done v
  | .yld y k => .yld (toSyncY y) (toSync k)

/-- Step-for-step image of one yielded value. -/
def toSyncY : AYVal → YVal
  | .achild a => .child (toSync a)
  | .thunkA f => .thunk (toSyncF f)
  | .plain v => .plain v

/-- Step-for-step image of a factory result. -/
def toSyncF : AFRes → FRes
  | .agen a => .gen (toSync a)
  | .notGen v => .notGen v
end

/-- Step-for-step image of a saved async stack frame. -/
def toSyncFrame (fr : AFrame) : Frame :=
  ⟨toSync fr.generator, fr.isTailCall⟩

/-- The mirroring relation of the spec's async-parity property: `a` is the
asynchronous resumption variant of `g` with the same suspensions and values,
each resume step merely awaited. -/
def Mirrors (a : AGen) (g : Gen) : Prop := toSync a = g

/- ===== test computations, translated from the repository's examples and
tests ===== -/

/-- The naive recursive two-branch combinatorial sequence from the README
`run` example and the unit tests: `fib(n) = 1` for `n <= 2`, else
`fib(n-1) + fib(n-2)`. -/
def naiveFib : Nat → Int
  | 0 => 1
  | 1 => 1
  | 2 => 1
  | n + 3 => naiveFib (n + 2) + naiveFib (n + 1)

/-- The integer a resumption input carries (the test computations are always
resumed with integer results, matching the JS dynamic addition on numbers). -/
def retInt : Ret → Int
  | .val (.int n) => n
  | _ => 0

/-- The raw value a resumption input carries. -/
def retVal : Ret → RVal
  | .val v => v
  | .fnBack => .null

/-- The resumable fibonacci generator from the README and the tests:
`function* fib(n) { if (n <= 2) return 1;
return (yield fib(n - 1)) + (yield fib(n - 2)); }`.
After the first yield the generator holds the first child's result `a`, after
the second it returns `a + b`. -/
def fibGen : Nat → Gen
  | 0 => Gen.mk (fun _ => .done (.int 1))
  | 1 => Gen.mk (fun _ => .done (.int 1))
  | 2 => Gen.mk (fun _ => .done (.int 1))
  | n + 3 => Gen.mk (fun _ =>
      .yld (.child (fibGen (n + 2))) (Gen.mk (fun a =>
        .yld (.child (fibGen (n + 1))) (Gen.mk (fun b =>
          .done (.int (retInt a + retInt b)))))))

/-- The iterative reference loop for the accumulator-style multiplication:
`while (n > 1) { seed = seed * n; n = n - 1; } return seed;`. -/
def iterMul : Nat → Int → Int
  | 0, seed => seed
  | 1, seed => seed
  | n + 2, seed => iterMul (n + 1) (seed * ((n : Int) + 2))

/-- The strictly tail-recursive accumulator computation from the README
`runTail` example and the tests: `function* factorial(n, acc) { if (n <= 1)
return acc; return yield factorial(n - 1, acc * n); }`.  The continuation
after the yield returns whatever value it is resumed with. -/
def factGen : Nat → Int → Gen
  | 0, acc => Gen.mk (fun _ => .done (.int acc))
  | 1, acc => Gen.mk (fun _ => .done (.int acc))
  | n + 2, acc => Gen.mk (fun _ =>
      .yld (.child (factGen (n + 1) (acc * ((n : Int) + 2))))
        (Gen.mk (fun r => .done (.int (retInt r)))))

/-- A parent that issues two nested computations across two successive
suspensions and then combines their results in order:
`function* parent() { const a = yield c1; const b = yield c2;
return combine(a, b); }`. -/
def twoChildGen (comb : RVal → RVal → RVal) (c₁ c₂ : Gen) : Gen :=
  Gen.mk (fun _ =>
    .yld (.child c₁) (Gen.mk (fun a =>
      .yld (.child c₂) (Gen.mk (fun b =>
        .done (comb (retVal a) (retVal b)))))))

/- ===== concrete computations used by witnesses and counterexamples ===== -/

/-- A generator that immediately returns 2. -/
def constTwo : Gen := Gen.mk (fun _ => .done (.int 2))

/-- A generator that immediately returns 3. -/
def constThree : Gen := Gen.mk (fun _ => .done (.int 3))

/-- An order-sensitive combination: `a - 2 * b`. -/
def combSub (a b : RVal) : RVal :=
  .int (retInt (.val a) - 2 * retInt (.val b))

/-- A continuation that ignores its input and returns 7. -/
def kSeven : Gen := Gen.mk (fun _ => .done (.int 7))

/-- A generator whose first suspension carries a deferred factory (a yielded
zero-argument function) whose invocation would return the plain value 0;
afterwards it returns 7. -/
def gYieldsFn : Gen := Gen.mk (fun _ => .yld (.thunk (.notGen (.int 0))) kSeven)

/-- An async generator that immediately returns 5. -/
def aDoneFive : AGen := AGen.mk (fun _ => .done (.int 5))

/-- The sync generator that immediately returns 5. -/
def gDoneFive : Gen := Gen.mk (fun _ => .done (.int 5))

/-- A generator whose first step descends into `constTwo` and then returns
the child's result. -/
def gDescend : Gen :=
  Gen.mk (fun _ => .yld (.child constTwo) (Gen.mk (fun r => .done (.int (retInt r)))))

/-- The post-yield state of `gDescend`. -/
def kDescend : Gen := Gen.mk (fun r => .done (.int (retInt r)))

/-- A one-frame stack holding `kSeven`. -/
def stOne : Nat → Option Frame := setSlot emptyStack 0 ⟨kSeven, false⟩

/- ===== lemmas ===== -/

theorem setSlot_self {α : Type} (st : Nat → Option α) (n : Nat) (f : α) :
    setSlot st n f n = some f := by
  simp [setSlot]

theorem setSlot_ne {α : Type} (st : Nat → Option α) (n i : Nat) (f : α) (h : i ≠ n) :
    setSlot st n f i = st i := by
  simp [setSlot, h]

/-- The reference evaluator consumes at least one and at most `f` fuel units. -/
theorem evalU_consumed : ∀ (f : Nat) (g : Gen) (r : Ret) (v : RVal) (m : Nat),
    evalU f g r = some (v, m) → 1 ≤ m ∧ m ≤ f := by
  intro f
  induction f using Nat.strong_induction_on with
  | _ f ih =>
    intro g r v m h
    match f with
    | 0 => simp [evalU] at h
    | f + 1 =>
      cases hs : nextG g r with
      | done v' =>
        simp [evalU, hs] at h
        omega
      | yld y k =>
        cases y with
        | plain u =>
          simp only [evalU, hs, Option.map_eq_some'] at h
          obtain ⟨⟨a, b⟩, hab, h2⟩ := h
          simp only [Prod.mk.injEq] at h2
          have := ih f (by omega) k (.val u) a b hab
          omega
        | thunk fr =>
          simp only [evalU, hs, Option.map_eq_some'] at h
          obtain ⟨⟨a, b⟩, hab, h2⟩ := h
          simp only [Prod.mk.injEq] at h2
          have := ih f (by omega) k .fnBack a b hab
          omega
        | child c =>
          simp only [evalU, hs] at h
          cases hc : evalU f c (.val .null) with
          | none => rw [hc] at h; simp at h
          | some p =>
            obtain ⟨u, m₁⟩ := p
            rw [hc] at h
            dsimp only at h
            cases hk : evalU (f - m₁) k (.val u) with
            | none => rw [hk] at h; simp at h
            | some q =>
              obtain ⟨v₂, m₂⟩ := q
              rw [hk] at h
              simp only [Option.some.injEq, Prod.mk.injEq] at h
              have t₁ := ih f (by omega) c (.val .null) u m₁ hc
              have t₂ := ih (f - m₁) (by omega) k (.val u) v₂ m₂ hk
              omega

/-- The reference evaluator is stable under extra fuel: the consumed count and
result do not change. -/
theorem evalU_mono : ∀ (f f' : Nat) (g : Gen) (r : Ret) (p : RVal × Nat),
    evalU f g r = some p → f ≤ f' → evalU f' g r = some p := by
  intro f
  induction f using Nat.strong_induction_on with
  | _ f ih =>
    intro f' g r p h hle
    match f, f' with
    | 0, _ => simp [evalU] at h
    | f + 1, 0 => omega
    | f + 1, f' + 1 =>
      cases hs : nextG g r with
      | done v =>
        simp [evalU, hs] at h ⊢
        exact h
      | yld y k =>
        cases y with
        | plain u =>
          simp only [evalU, hs, Option.map_eq_some'] at h ⊢
          obtain ⟨a, hab, h2⟩ := h
          exact ⟨a, ih f (by omega) f' k (.val u) a hab (by omega), h2⟩
        | thunk fr =>
          simp only [evalU, hs, Option.map_eq_some'] at h ⊢
          obtain ⟨a, hab, h2⟩ := h
          exact ⟨a, ih f (by omega) f' k .fnBack a hab (by omega), h2⟩
        | child c =>
          simp only [evalU, hs] at h ⊢
          cases hc : evalU f c (.val .null) with
          | none => rw [hc] at h; simp at h
          | some p₁ =>
            obtain ⟨u, m₁⟩ := p₁
            rw [hc] at h
            dsimp only at h
            have hc' := ih f (by omega) f' c (.val .null) (u, m₁) hc (by omega)
            rw [hc']
            dsimp only
            cases hk : evalU (f - m₁) k (.val u) with
            | none => rw [hk] at h; simp at h
            | some q =>
              obtain ⟨v₂, m₂⟩ := q
              rw [hk] at h
              have hm₁ := evalU_consumed f c (.val .null) u m₁ hc
              have hk' := ih (f - m₁) (by omega) (f' - m₁) k (.val u) (v₂, m₂) hk (by omega)
              rw [hk']
              exact h

/-- The loop looks at stack slots only below the current stack size, so two
stacks agreeing there drive identically (pushed slots overwrite before being
read back; stale popped slots above the size are never consulted). -/
theorem runSyncLoop_congr : ∀ (f : Nat) (st st' : Nat → Option Frame) (n : Nat) (g : Gen) (r : Ret),
    (∀ i, i < n → st i = st' i) →
    runSyncLoop f st n g r = runSyncLoop f st' n g r := by
  intro f
  induction f with
  | zero => intro st st' n g r _; rfl
  | succ f ih =>
    intro st st' n g r hagree
    cases hs : nextG g r with
    | done v =>
      simp only [runSyncLoop, hs]
      by_cases hn : n = 0
      · simp [hn]
      · simp only [if_neg hn]
        rw [hagree (n - 1) (by omega)]
        cases hfr : st' (n - 1) with
        | none => rfl
        | some fr =>
          exact ih st st' (n - 1) fr.generator (.val v) (fun i hi => hagree i (by omega))
    | yld y k =>
      cases y with
      | child c =>
        simp only [runSyncLoop, hs]
        apply ih
        intro i hi
        by_cases hin : i = n
        · subst hin; rw [setSlot_self, setSlot_self]
        · rw [setSlot_ne _ _ _ _ hin, setSlot_ne _ _ _ _ hin]
          exact hagree i (by omega)
      | thunk fr =>
        simp only [runSyncLoop, hs]
        exact ih st st' n k .fnBack hagree
      | plain v =>
        simp only [runSyncLoop, hs]
        exact ih st st' n k (.val v) hagree

/-- The general driver implements the reference (naive-recursion) semantics:
from any loop state, the machine first computes exactly the reference value of
the current computation (consuming the same number of resumption steps), and
then, if the stack is nonempty, pops the most recent parent and resumes it
with that value — i.e. the stack read top-to-bottom is precisely the chain of
parents each awaiting the value of the computation above it. -/
theorem runSyncLoop_eval : ∀ (f : Nat) (st : Nat → Option Frame) (n : Nat) (g : Gen) (r : Ret),
    runSyncLoop f st n g r =
      match evalU f g r with
      | none => .fuelOut
      | some (v, m) =>
          if n = 0 then .ok v
          else
            match st (n - 1) with
            | none => .frameUndefined
            | some fr => runSyncLoop (f - m) st (n - 1) fr.generator (.val v) := by
  intro f
  induction f using Nat.strong_induction_on with
  | _ f ih =>
    intro st n g r
    match f with
    | 0 => simp [runSyncLoop, evalU]
    | f + 1 =>
      cases hs : nextG g r with
      | done v =>
        simp only [runSyncLoop, evalU, hs, Nat.add_sub_cancel]
      | yld y k =>
        cases y with
        | plain u =>
          simp only [runSyncLoop, evalU, hs]
          rw [ih f (by omega) st n k (.val u)]
          cases he : evalU f k (.val u) with
          | none => rfl
          | some p =>
            obtain ⟨v, m⟩ := p
            simp only [Option.map_some', Nat.succ_sub_succ]
        | thunk fr =>
          simp only [runSyncLoop, evalU, hs]
          rw [ih f (by omega) st n k .fnBack]
          cases he : evalU f k .fnBack with
          | none => rfl
          | some p =>
            obtain ⟨v, m⟩ := p
            simp only [Option.map_some', Nat.succ_sub_succ]
        | child c =>
          simp only [runSyncLoop, evalU, hs]
          rw [ih f (by omega) (setSlot st n ⟨k, false⟩) (n + 1) c (.val .null)]
          cases hc : evalU f c (.val .null) with
          | none => rfl
          | some p =>
            obtain ⟨u, m₁⟩ := p
            dsimp only
            simp only [Nat.add_sub_cancel, Nat.add_eq_zero, Nat.succ_ne_zero, and_false,
              if_false, setSlot_self]
            rw [ih (f - m₁) (by omega) (setSlot st n ⟨k, false⟩) n k (.val u)]
            cases hk : evalU (f - m₁) k (.val u) with
            | none => rfl
            | some q =>
              obtain ⟨v, m₂⟩ := q
              dsimp only
              by_cases hn : n = 0
              · simp [hn]
              · simp only [if_neg hn]
                rw [setSlot_ne st n (n - 1) ⟨k, false⟩ (by omega)]
                cases hfr : st (n - 1) with
                | none => rfl
                | some fr =>
                  dsimp only
                  rw [runSyncLoop_congr (f - m₁ - m₂) (setSlot st n ⟨k, false⟩) st (n - 1)
                    fr.generator (.val v)
                    (fun i hi => setSlot_ne st n i ⟨k, false⟩ (by omega))]
                  have harith : f + 1 - (m₁ + m₂ + 1) = f - m₁ - m₂ := by omega
                  rw [harith]

/-- A completed step under the reference evaluator. -/
theorem evalU_done_any (f : Nat) (g : Gen) (r : Ret) (v : RVal)
    (h : nextG g r = .done v) : evalU (f + 1) g r = some (v, 1) := by
  simp [evalU, h]

/-- Descent into a child under the reference evaluator: the child is evaluated
to completion and the parent continuation resumed with its value. -/
theorem evalU_child_comp (f₁ f₂ : Nat) (g : Gen) (r : Ret) (c k : Gen) (u v : RVal) (m₁ m₂ : Nat)
    (h : nextG g r = .yld (.child c) k)
    (h₁ : evalU f₁ c (.val .null) = some (u, m₁))
    (h₂ : evalU f₂ k (.val u) = some (v, m₂)) :
    evalU (f₁ + f₂ + 1) g r = some (v, m₁ + m₂ + 1) := by
  have hm₁ := evalU_consumed f₁ c (.val .null) u m₁ h₁
  have hc := evalU_mono f₁ (f₁ + f₂) c (.val .null) (u, m₁) h₁ (by omega)
  have hk := evalU_mono f₂ (f₁ + f₂ - m₁) k (.val u) (v, m₂) h₂ (by omega)
  simp only [evalU, h]
  rw [hc]
  dsimp only
  rw [hk]

/-- Under the reference semantics the resumable fibonacci evaluates to the
naive recursive fibonacci, for every `n` and any initial resumption input
(the first step of a fresh generator ignores its input). -/
theorem fibGen_evalU : ∀ (n : Nat) (r : Ret),
    ∃ f m, evalU f (fibGen n) r = some (.int (naiveFib n), m) := by
  intro n
  induction n using Nat.strong_induction_on with
  | _ n ih =>
    intro r
    match n with
    | 0 => exact ⟨1, 1, evalU_done_any 0 _ r (.int 1) rfl⟩
    | 1 => exact ⟨1, 1, evalU_done_any 0 _ r (.int 1) rfl⟩
    | 2 => exact ⟨1, 1, evalU_done_any 0 _ r (.int 1) rfl⟩
    | n + 3 =>
      obtain ⟨f₁, m₁, h₁⟩ := ih (n + 2) (by omega) (.val .null)
      obtain ⟨f₂, m₂, h₂⟩ := ih (n + 1) (by omega) (.val .null)
      have hstep : nextG (fibGen (n + 3)) r =
          .yld (.child (fibGen (n + 2)))
            (Gen.mk (fun a => .yld (.child (fibGen (n + 1)))
              (Gen.mk (fun b => .done (.int (retInt a + retInt b)))))) := by
        simp only [fibGen]
        rfl
      have e3 : evalU 1
          (Gen.mk (fun b => .done (.int (retInt (Ret.val (.int (naiveFib (n + 2)))) + retInt b))))
          (.val (.int (naiveFib (n + 1)))) =
          some (.int (naiveFib (n + 2) + naiveFib (n + 1)), 1) :=
        evalU_done_any 0 _ _ _ rfl
      have e2 : evalU (f₂ + 1 + 1)
          (Gen.mk (fun a => .yld (.child (fibGen (n + 1)))
            (Gen.mk (fun b => .done (.int (retInt a + retInt b))))))
          (.val (.int (naiveFib (n + 2)))) =
          some (.int (naiveFib (n + 2) + naiveFib (n + 1)), m₂ + 1 + 1) :=
        evalU_child_comp f₂ 1 _ _ _ _ _ _ _ _ rfl h₂ e3
      have e1 : evalU (f₁ + (f₂ + 1 + 1) + 1) (fibGen (n + 3)) r =
          some (.int (naiveFib (n + 2) + naiveFib (n + 1)), m₁ + (m₂ + 1 + 1) + 1) :=
        evalU_child_comp f₁ (f₂ + 1 + 1) _ _ _ _ _ _ _ _ hstep h₁ e2
      refine ⟨f₁ + (f₂ + 1 + 1) + 1, m₁ + (m₂ + 1 + 1) + 1, ?_⟩
      have hfib : naiveFib (n + 3) = naiveFib (n + 2) + naiveFib (n + 1) := by
        simp [naiveFib]
      rw [hfib]
      exact e1

/-- The tail loop computes the iterative reference value for the accumulator
computation, in exactly `n + 1` resumption steps and with no auxiliary stack
(the loop state is just the current computation and the pending input). -/
theorem runTailSyncLoop_factGen : ∀ (n : Nat) (seed : Int) (r : Ret),
    runTailSyncLoop (n + 1) (factGen n seed) r = .ok (.int (iterMul n seed)) := by
  intro n
  induction n using Nat.strong_induction_on with
  | _ n ih =>
    intro seed r
    match n with
    | 0 => simp [runTailSyncLoop, factGen, iterMul, nextG]
    | 1 => simp [runTailSyncLoop, factGen, iterMul, nextG]
    | n + 2 =>
      have hstep : nextG (factGen (n + 2) seed) r =
          .yld (.child (factGen (n + 1) (seed * ((n : Int) + 2))))
            (Gen.mk (fun r' => .done (.int (retInt r')))) := by
        simp only [factGen]
        rfl
      have hone : runTailSyncLoop (n + 2 + 1) (factGen (n + 2) seed) r =
          runTailSyncLoop (n + 2) (factGen (n + 1) (seed * ((n : Int) + 2))) (.val .null) := by
        conv_lhs => rw [runTailSyncLoop]
        rw [hstep]
      rw [hone, ih (n + 1) (by omega) (seed * ((n : Int) + 2)) (.val .null)]
      simp only [iterMul]

/-- The async general loop is, state for state, the sync general loop on the
step-for-step mirrored computation and stack: both apply the same control-flow
rules (descend and push, plain-value round trip, completion pop). -/
theorem runAsyncLoop_toSync : ∀ (f : Nat) (st : Nat → Option AFrame) (n : Nat) (a : AGen) (r : Ret),
    runAsyncLoop f st n a r =
      runSyncLoop f (fun i => (st i).map toSyncFrame) n (toSync a) r := by
  intro f
  induction f with
  | zero => intro st n a r; rfl
  | succ f ih =>
    intro st n a r
    obtain ⟨k⟩ := a
    have hmk : toSync (AGen.mk k) = Gen.mk (fun r' => toSyncStep (k r')) := by
      rw [toSync]
    cases hs : k r with
    | done v =>
      have hnext : nextG (toSync (AGen.mk k)) r = .done v := by
        rw [hmk]
        show toSyncStep (k r) = _
        rw [hs, toSyncStep]
      simp only [runAsyncLoop, runSyncLoop, nextA, hs, hnext]
      by_cases hn : n = 0
      · simp [hn]
      · simp only [if_neg hn]
        cases hfr : st (n - 1) with
        | none => rfl
        | some fr =>
          simp only [Option.map_some']
          exact ih st (n - 1) fr.generator (.val v)
    | yld y k' =>
      have hnext : nextG (toSync (AGen.mk k)) r = .yld (toSyncY y) (toSync k') := by
        rw [hmk]
        show toSyncStep (k r) = _
        rw [hs, toSyncStep]
      cases y with
      | achild c =>
        have hy : toSyncY (.achild c) = .child (toSync c) := by rw [toSyncY]
        rw [hy] at hnext
        simp only [runAsyncLoop, runSyncLoop, nextA, hs, hnext]
        rw [ih (setSlot st n ⟨k', false⟩) (n + 1) c (.val .null)]
        congr 1
        funext i
        by_cases hin : i = n
        · subst hin
          rw [setSlot_self, setSlot_self]
          rfl
        · rw [setSlot_ne _ _ _ _ hin, setSlot_ne _ _ _ _ hin]
      | thunkA fres =>
        have hy : toSyncY (.thunkA fres) = .thunk (toSyncF fres) := by rw [toSyncY]
        rw [hy] at hnext
        simp only [runAsyncLoop, runSyncLoop, nextA, hs, hnext]
        exact ih st n k' .fnBack
      | plain v =>
        have hy : toSyncY (.plain v) = .plain v := by rw [toSyncY]
        rw [hy] at hnext
        simp only [runAsyncLoop, runSyncLoop, nextA, hs, hnext]
        exact ih st n k' (.val v)

/-- A successful general-driver invocation means the reference evaluator
computed the same value from the same fuel. -/
theorem runSyncImpl_ok_evalU (f : Nat) (g : Gen) (v : RVal)
    (h : runSyncImpl f g = .ok v) : ∃ m, evalU f g (.val .null) = some (v, m) := by
  unfold runSyncImpl at h
  rw [runSyncLoop_eval] at h
  cases he : evalU f g (.val .null) with
  | none => rw [he] at h; simp at h
  | some p =>
    obtain ⟨u, m⟩ := p
    rw [he] at h
    simp at h
    exact ⟨m, by rw [h]⟩

/- ===== claim theorems ===== -/

/-- Claim C1: for the two-branch combinatorial computation expressed both as
the naive recursive function `naiveFib` and as the resumable computation
`fibGen` (identical base cases and combination logic), the general driver
`run` returns the same value as the naive recursion, for every `n` in the
range `0..20` (the proof in fact covers every `n`). -/
theorem run_general_matches_naive (n : Nat) (hn : n ≤ 20) :
    ∃ fuel, run fuel (.sync (fibGen n)) = .ok (.int (naiveFib n)) := by
  obtain ⟨f, m, h⟩ := fibGen_evalU n (.val .null)
  refine ⟨f, ?_⟩
  show runSyncImpl f (fibGen n) = _
  unfold runSyncImpl
  rw [runSyncLoop_eval, h]
  simp

/-- Concrete instance of claim C1 at `n = 10`. -/
theorem run_general_matches_naive_witness :
    10 ≤ 20 ∧ ∃ fuel, run fuel (.sync (fibGen 10)) = .ok (.int (naiveFib 10)) :=
  ⟨by decide, run_general_matches_naive 10 (by decide)⟩

/-- Claim C2: for the strictly tail-recursive accumulator computation
`factGen n seed` (repeated multiplication with an accumulator), the tail
driver returns the same value as the iterative reference loop `iterMul` on
`n` and `seed`, for every `n` (so in particular n = 0, 1 and 10000) — in
exactly `n + 1` resumption steps, the loop state being only the current
computation and pending input (no stack). -/
theorem runTail_matches_iterative (n : Nat) (seed : Int) :
    runTailSyncImpl (n + 1) (factGen n seed) = .ok (.int (iterMul n seed)) :=
  runTailSyncLoop_factGen n seed (.val .null)

/-- Claim C3: an asynchronous computation that mirrors a synchronous one
step for step (`Mirrors`, same suspensions, same values, each resume step
awaited) produces under the async driver exactly the sync driver's result on
the sync computation; moreover the async loop applies the same control-flow
rules as the sync loop from every loop state (stack discipline, plain-value
round trip, completion pop). -/
theorem async_parity :
    (∀ (fuel : Nat) (a : AGen) (g : Gen),
      Mirrors a g → runAsyncImpl fuel a = runSyncImpl fuel g)
  ∧ (∀ (fuel : Nat) (st : Nat → Option AFrame) (n : Nat) (a : AGen) (r : Ret),
      runAsyncLoop fuel st n a r =
        runSyncLoop fuel (fun i => (st i).map toSyncFrame) n (toSync a) r) := by
  constructor
  · intro fuel a g hm
    have hg : toSync a = g := hm
    unfold runAsyncImpl runSyncImpl
    rw [runAsyncLoop_toSync, hg]
    rfl
  · exact runAsyncLoop_toSync

/-- Concrete instance of claim C3: a mirrored pair of computations. -/
theorem async_parity_witness : runAsyncImpl 1 aDoneFive = runSyncImpl 1 gDoneFive :=
  async_parity.1 1 aDoneFive gDoneFive rfl

/-- Claim C4 counterexample: the general driver does NOT fail on a suspension
carrying a deferred factory (a yielded function).  Driving `gYieldsFn`, whose
first suspension yields a function, continues past that suspension and
completes normally with 7 — no usage error is raised (the outcome type of the
embedded `run` has no usage-error case at all: the code has no such path). -/
theorem run_deferred_no_error_counterexample :
    runSyncImpl 2 gYieldsFn = RunOut.ok (.int 7) := by decide

/-- Claim C4 (amended): when the current computation suspends with a deferred
factory, the general driver classifies it like any other non-generator value
(`isGenerator` is false for functions): the yielded function is handed back
as the next resumption input and the run continues, with stack and depth
unchanged; no usage error is raised. -/
theorem run_deferred_treated_as_plain (fuel : Nat) (st : Nat → Option Frame) (n : Nat)
    (g : Gen) (r : Ret) (fr : FRes) (k : Gen)
    (h : nextG g r = .yld (.thunk fr) k) :
    runSyncLoop (fuel + 1) st n g r = runSyncLoop fuel st n k .fnBack := by
  simp only [runSyncLoop, h]

/-- Concrete instance of the amended claim C4. -/
theorem run_deferred_treated_as_plain_witness :
    runSyncLoop 1 emptyStack 0 gYieldsFn (.val .null) =
      runSyncLoop 0 emptyStack 0 kSeven .fnBack :=
  run_deferred_treated_as_plain 0 emptyStack 0 gYieldsFn (.val .null)
    (.notGen (.int 0)) kSeven rfl

/-- Claim C5: if, during `runTail`, a suspension carries a deferred factory
whose invocation returns a value without a usable `next` capability
(`FRes.notGen`: it fails the `gen && typeof gen.next === 'function'` check),
the call fails at once with the usage TypeError, regardless of remaining fuel
and without driving the invalid value. -/
theorem runTail_invalid_factory_fails (fuel : Nat) (g : Gen) (r : Ret) (v : RVal) (k : Gen)
    (h : nextG g r = .yld (.thunk (.notGen v)) k) :
    runTailSyncLoop (fuel + 1) g r = .typeErrorInvalidFactory := by
  simp only [runTailSyncLoop, h]

/-- Concrete instance of claim C5. -/
theorem runTail_invalid_factory_fails_witness :
    runTailSyncLoop 1 gYieldsFn (.val .null) = .typeErrorInvalidFactory :=
  runTail_invalid_factory_fails 0 gYieldsFn (.val .null) (.int 0) kSeven rfl

/-- Claim C6 counterexample: passing an asynchronous computation to `run` is
not rejected as a usage error — `run` dispatches it to the asynchronous loop,
which drives it to a successful result (and the embedded outcome type has no
usage-error case: the code has no mixing-error path). -/
theorem run_async_dispatch_counterexample :
    run 1 (.async aDoneFive) = RunOut.ok (.int 5) := by decide

/-- Claim C6 (amended): classification distinguishes the asynchronous
resumable capability (`isAsyncGenerator`) from the synchronous one
(`isGenerator`), and the public `run` entry point dispatches on it, so each
computation is driven by its own mode's loop; no usage error is raised for
mixing — an async computation given to `run` simply runs under the async
loop. -/
theorem run_mode_dispatch :
    (∀ (fuel : Nat) (a : AGen), run fuel (.async a) = runAsyncImpl fuel a)
  ∧ (∀ (fuel : Nat) (g : Gen), run fuel (.sync g) = runSyncImpl fuel g)
  ∧ isAsyncGenerator asyncGenObjShape = true
  ∧ isGenerator asyncGenObjShape = false
  ∧ isGenerator genObjShape = true
  ∧ isAsyncGenerator genObjShape = false :=
  ⟨fun _ _ => rfl, fun _ _ => rfl, by decide, by decide, by decide, by decide⟩

/-- Claim C7: `isGenerator v` is true exactly when `v` is an object exposing
a `Symbol.iterator` method together with the `'Generator'` string tag (the
structural resume-contract check the code performs); in particular it is
false on null, undefined, non-object primitives, the empty/plain object, a
bare callable, and any object with a `Symbol.iterator` method but without the
`'Generator'` tag — and true on the generator-object shape. -/
theorem isGenerator_classification :
    (∀ v : JSVal, isGenerator v = true ↔
      ∃ o : JSObj, v = .obj o ∧ o.hasIter = true ∧ o.tag = some .tagGenerator)
  ∧ isGenerator .vNull = false
  ∧ isGenerator .vUndef = false
  ∧ (∀ n : Int, isGenerator (.number n) = false)
  ∧ (∀ b : Bool, isGenerator (.boolean b) = false)
  ∧ isGenerator .fnVal = false
  ∧ isGenerator (.obj ⟨false, false, none⟩) = false
  ∧ (∀ asyncIter : Bool, isGenerator (.obj ⟨true, asyncIter, none⟩) = false)
  ∧ (∀ asyncIter : Bool, isGenerator (.obj ⟨true, asyncIter, some .tagAsyncGenerator⟩) = false)
  ∧ isGenerator genObjShape = true := by
  refine ⟨?_, rfl, rfl, fun _ => rfl, fun _ => rfl, rfl, by decide,
    fun ai => by cases ai <;> decide, fun ai => by cases ai <;> decide, by decide⟩
  intro v
  cases v with
  | vNull => simp [isGenerator]
  | vUndef => simp [isGenerator]
  | number n => simp [isGenerator]
  | boolean b => simp [isGenerator]
  | fnVal => simp [isGenerator]
  | obj o =>
    obtain ⟨hi, ha, t⟩ := o
    constructor
    · intro h
      simp only [isGenerator, Bool.and_eq_true, beq_iff_eq] at h
      exact ⟨⟨hi, ha, t⟩, rfl, h.1, h.2⟩
    · rintro ⟨o', heq, h1, h2⟩
      cases heq
      simp only [isGenerator, Bool.and_eq_true, beq_iff_eq]
      exact ⟨h1, h2⟩

/-- Claim C8: the general driver's explicit stack behaves exactly as the
ancestor chain of the computation being resumed: on descent into a nested
child it grows by exactly the previous current computation (its post-yield
state, pushed at the top), on completion of the current computation it
shrinks by exactly its top element, which is the most recent parent and is
resumed with the completed child's result; and from any loop state the final
outcome is obtained by evaluating the current computation as a standalone
(reference) computation and feeding its value to the top stack frame, then
recursively down the chain. -/
theorem run_stack_ancestry :
    ∀ (fuel : Nat) (st : Nat → Option Frame) (n : Nat) (g : Gen) (r : Ret),
      (∀ (c k : Gen), nextG g r = .yld (.child c) k →
        runSyncLoop (fuel + 1) st n g r =
          runSyncLoop fuel (setSlot st n ⟨k, false⟩) (n + 1) c (.val .null))
    ∧ (∀ (v : RVal) (fr : Frame), nextG g r = .done v → 0 < n → st (n - 1) = some fr →
        runSyncLoop (fuel + 1) st n g r = runSyncLoop fuel st (n - 1) fr.generator (.val v))
    ∧ (runSyncLoop fuel st n g r =
        match evalU fuel g r with
        | none => .fuelOut
        | some (v, m) =>
            if n = 0 then .ok v
            else
              match st (n - 1) with
              | none => .frameUndefined
              | some fr => runSyncLoop (fuel - m) st (n - 1) fr.generator (.val v)) := by
  intro fuel st n g r
  refine ⟨?_, ?_, runSyncLoop_eval fuel st n g r⟩
  · intro c k h
    simp only [runSyncLoop, h]
  · intro v fr h hn hfr
    simp only [runSyncLoop, h]
    rw [if_neg (by omega : ¬n = 0), hfr]

/-- Concrete instances of claim C8: a descent step and a completion pop. -/
theorem run_stack_ancestry_witness :
    (runSyncLoop 3 emptyStack 0 gDescend (.val .null) =
      runSyncLoop 2 (setSlot emptyStack 0 ⟨kDescend, false⟩) 1 constTwo (.val .null))
  ∧ (runSyncLoop 3 stOne 1 gDoneFive (.val .null) =
      runSyncLoop 2 stOne 0 kSeven (.val (.int 5))) :=
  ⟨(run_stack_ancestry 2 emptyStack 0 gDescend (.val .null)).1 constTwo kDescend rfl,
   (run_stack_ancestry 2 stOne 1 gDoneFive (.val .null)).2.1 (.int 5) ⟨kSeven, false⟩
     rfl (by decide) rfl⟩

/-- Claim C9: for a parent that issues two nested computations across two
successive suspensions, the general driver runs the first child to
completion, resumes the parent with that result, and only then enters the
second child (one child active at a time: the fuel consumed by the first
child is spent before the second child's evaluation begins); the final value
is exactly the combination, in order, of the two results the children produce
when run independently. -/
theorem run_two_children_in_order (comb : RVal → RVal → RVal) (c₁ c₂ : Gen)
    (f₁ f₂ : Nat) (r₁ r₂ : RVal)
    (h₁ : runSyncImpl f₁ c₁ = .ok r₁) (h₂ : runSyncImpl f₂ c₂ = .ok r₂) :
    runSyncImpl (f₁ + f₂ + 3) (twoChildGen comb c₁ c₂) = .ok (comb r₁ r₂) := by
  obtain ⟨m₁, e₁⟩ := runSyncImpl_ok_evalU f₁ c₁ r₁ h₁
  obtain ⟨m₂, e₂⟩ := runSyncImpl_ok_evalU f₂ c₂ r₂ h₂
  have hdone : evalU 1
      (Gen.mk (fun b => .done (comb (retVal (Ret.val r₁)) (retVal b)))) (.val r₂) =
      some (comb r₁ r₂, 1) := evalU_done_any 0 _ _ _ rfl
  have emid : evalU (f₂ + 1 + 1)
      (Gen.mk (fun a => .yld (.child c₂)
        (Gen.mk (fun b => .done (comb (retVal a) (retVal b)))))) (.val r₁) =
      some (comb r₁ r₂, m₂ + 1 + 1) :=
    evalU_child_comp f₂ 1 _ _ _ _ _ _ _ _ rfl e₂ hdone
  have etop : evalU (f₁ + (f₂ + 1 + 1) + 1) (twoChildGen comb c₁ c₂) (.val .null) =
      some (comb r₁ r₂, m₁ + (m₂ + 1 + 1) + 1) :=
    evalU_child_comp f₁ (f₂ + 1 + 1) _ _ _ _ _ _ _ _ rfl e₁ emid
  have hf : f₁ + (f₂ + 1 + 1) + 1 = f₁ + f₂ + 3 := by omega
  rw [hf] at etop
  unfold runSyncImpl
  rw [runSyncLoop_eval, etop]
  simp

/-- Concrete instance of claim C9: children returning 2 and 3 combined with
the order-sensitive combination `a - 2 * b`. -/
theorem run_two_children_in_order_witness :
    runSyncImpl 5 (twoChildGen combSub constTwo constThree) =
      .ok (combSub (.int 2) (.int 3)) :=
  run_two_children_in_order combSub constTwo constThree 1 1 (.int 2) (.int 3)
    (by decide) (by decide)

/-- Claim C10: no `run` invocation, synchronous or asynchronous, ever ends in
the internal `Error('Stack frame is undefined')`: every invocation either
completes with a value or runs out of fuel, so the guarded pop always finds a
previously pushed frame. -/
theorem run_never_internal_frame_error :
    ∀ (fuel : Nat) (g : Gen) (a : AGen),
      (runSyncImpl fuel g = .fuelOut ∨ ∃ v, runSyncImpl fuel g = .ok v)
    ∧ (runAsyncImpl fuel a = .fuelOut ∨ ∃ v, runAsyncImpl fuel a = .ok v) := by
  have hsync : ∀ (fuel : Nat) (g : Gen),
      runSyncImpl fuel g = .fuelOut ∨ ∃ v, runSyncImpl fuel g = .ok v := by
    intro fuel g
    unfold runSyncImpl
    rw [runSyncLoop_eval]
    cases he : evalU fuel g (.val .null) with
    | none => left; rfl
    | some p =>
      obtain ⟨v, m⟩ := p
      right
      exact ⟨v, by simp⟩
  intro fuel g a
  refine ⟨hsync fuel g, ?_⟩
  have h2 : runAsyncImpl fuel a = runSyncImpl fuel (toSync a) := by
    unfold runAsyncImpl runSyncImpl
    rw [runAsyncLoop_toSync]
    rfl
  rw [h2]
  exact hsync fuel (toSync a)

end RecuRun
